import Mathlib

/-!
Formal model of the `gpgcloud` content-addressed encrypt/store/retrieve
engine.

Byte strings are modelled as `List Nat` (one entry per byte).  External
collaborators of the repository (the Python 2 `base64`/`binascii` modules,
the AES block primitive of PyCrypto, the `gnupg` wrapper, the JSON
serializer and the SHA-256 digest) are modelled as follows:

* `base64.encodestring` / `base64.decodestring` are implemented concretely
  from the documented Python 2 semantics (MIME encoding in 57-byte input
  chunks, 76-character lines each terminated by a newline; the decoder
  ignores characters outside the alphabet and fails on incorrect padding);
* the AES-256 block primitive, the SHA-256 digest, the gpg pipeline and the
  JSON serializer are parameters of the model (fields of `Cfg`), because
  they live outside this repository; theorems assume only the properties
  the source relies on (block-cipher inversion, 32-byte digests, gpg
  decryption inverting gpg encryption) and witnesses instantiate them with
  concrete executable functions.

Everything else (CBC chaining and padding loops of `lib/encryption.py`, the
engine protocols of `cloud/__init__.py`, the index of
`database/__init__.py`, the back-end delete operations of `cloud/aws.py`
and `cloud/sftp.py`) is translated from the repository source.
-/

set_option autoImplicit false

namespace Gpgcloud

/-! ## Python 2 `base64` module -/

/-- ASCII code of the base64 alphabet character for a sextet value
`v < 64`; the value `64` stands for the padding character `=`. -/
def b64char (v : Nat) : Nat :=
  if v < 26 then v + 65
  else if v < 52 then v + 71
  else if v < 62 then v - 4
  else if v = 62 then 43
  else if v = 63 then 47
  else 61

/-- Inverse table: ASCII code to sextet value (`64` for the padding
character `=`); `none` for characters outside the alphabet, which the
Python 2 decoder skips. -/
def b64val (c : Nat) : Option Nat :=
  if 65 ≤ c ∧ c ≤ 90 then some (c - 65)
  else if 97 ≤ c ∧ c ≤ 122 then some (c - 71)
  else if 48 ≤ c ∧ c ≤ 57 then some (c + 4)
  else if c = 43 then some 62
  else if c = 47 then some 63
  else if c = 61 then some 64
  else none

/-- Encode a byte list into sextet values in groups of three bytes,
emitting the padding marker `64` in the final partial group, as
`binascii.b2a_base64` does. -/
def sextets : List Nat → List Nat
  | [] => []
  | [b1] => [b1 / 4, b1 % 4 * 16, 64, 64]
  | [b1, b2] => [b1 / 4, b1 % 4 * 16 + b2 / 16, b2 % 16 * 4, 64]
  | b1 :: b2 :: b3 :: rest =>
      b1 / 4 :: (b1 % 4 * 16 + b2 / 16) :: (b2 % 16 * 4 + b3 / 64) ::
        b3 % 64 :: sextets rest

/-- Decode sextet values (with `64` as padding marker) in groups of four,
mirroring `binascii.a2b_base64`: a group ending in one padding marker
yields two bytes, a group ending in two padding markers yields one byte.
A leftover partial group, data after a padded group, or a padding marker
in the first two positions of a group make the Python 2 decoder raise
`binascii.Error`; those cases return `none`. -/
def unsextets : List Nat → Option (List Nat)
  | [] => some []
  | c1 :: c2 :: c3 :: c4 :: rest =>
      if c1 = 64 ∨ c2 = 64 then none
      else if c3 = 64 then
        if c4 = 64 ∧ rest = [] then some [c1 * 4 + c2 / 16] else none
      else if c4 = 64 then
        if rest = [] then some [c1 * 4 + c2 / 16, c2 % 16 * 16 + c3 / 4]
        else none
      else
        (unsextets rest).map
          (fun bs => (c1 * 4 + c2 / 16) :: (c2 % 16 * 16 + c3 / 4) ::
            (c3 % 4 * 64 + c4) :: bs)
  | _ => none

/-- `binascii.b2a_base64`: one line of base64 characters followed by a
newline (ASCII 10). -/
def b2a_base64 (bs : List Nat) : List Nat :=
  (sextets bs).map b64char ++ [10]

/-- Chunking loop of `base64.encodestring`, structurally recursive on an
explicit fuel so that it evaluates by kernel reduction; the fuel bounds
the number of 57-byte chunks and any value at least the input length is
enough (`encodestring` below supplies exactly the input length). -/
def encodestring_go : Nat → List Nat → List Nat
  | _, [] => []
  | 0, _ :: _ => []
  | fuel + 1, b :: rest =>
      b2a_base64 ((b :: rest).take 57) ++
        encodestring_go fuel ((b :: rest).drop 57)

/-- Python 2 `base64.encodestring`: encode the input in chunks of 57
bytes, each producing a newline-terminated line. -/
def encodestring (bs : List Nat) : List Nat :=
  encodestring_go bs.length bs

/-- Python 2 `base64.decodestring`: drop characters outside the alphabet
(newlines in particular) and decode the sextet stream; `none` models a
`binascii.Error`. -/
def decodestring (s : List Nat) : Option (List Nat) :=
  unsextets (s.filterMap b64val)

theorem b64val_b64char : ∀ v < 65, b64val (b64char v) = some v := by decide

theorem filterMap_b64val_map_b64char (l : List Nat) (h : ∀ v ∈ l, v < 65) :
    (l.map b64char).filterMap b64val = l := by
  induction l with
  | nil => simp
  | cons v t ih =>
      have hv : b64val (b64char v) = some v :=
        b64val_b64char v (h v (List.mem_cons_self v t))
      simp only [List.map_cons, List.filterMap_cons, hv]
      exact congrArg (v :: ·) (ih fun x hx => h x (List.mem_cons_of_mem v hx))

theorem sextets_le (bs : List Nat) : (∀ b ∈ bs, b < 256) →
    ∀ v ∈ sextets bs, v < 65 := by
  induction bs using sextets.induct with
  | case1 => intro _ v hv; simp [sextets] at hv
  | case2 b1 =>
      intro h
      have hb1 : b1 < 256 := h b1 (by simp)
      simp only [sextets, List.mem_cons, List.not_mem_nil, or_false]
      rintro v (rfl | rfl | rfl | rfl) <;> omega
  | case3 b1 b2 =>
      intro h
      have hb1 : b1 < 256 := h b1 (by simp)
      have hb2 : b2 < 256 := h b2 (by simp)
      simp only [sextets, List.mem_cons, List.not_mem_nil, or_false]
      rintro v (rfl | rfl | rfl | rfl) <;> omega
  | case4 b1 b2 b3 rest ih =>
      intro h
      have hb1 : b1 < 256 := h b1 (by simp)
      have hb2 : b2 < 256 := h b2 (by simp)
      have hb3 : b3 < 256 := h b3 (by simp)
      have ih' := ih fun b hb => h b (by simp [hb])
      simp only [sextets, List.mem_cons]
      rintro v (rfl | rfl | rfl | rfl | hv)
      · omega
      · omega
      · omega
      · omega
      · exact ih' v hv

theorem unsextets_sextets_append (bs : List Nat) : ∀ t : List Nat,
    bs.length % 3 = 0 → (∀ b ∈ bs, b < 256) →
    unsextets (sextets bs ++ t) = (unsextets t).map (bs ++ ·) := by
  induction bs using sextets.induct with
  | case1 =>
      intro t _ _
      simp [sextets]
  | case2 b1 => intro t hlen _; simp at hlen
  | case3 b1 b2 => intro t hlen _; simp at hlen
  | case4 b1 b2 b3 rest ih =>
      intro t hlen h
      have hb1 : b1 < 256 := h b1 (by simp)
      have hb2 : b2 < 256 := h b2 (by simp)
      have hb3 : b3 < 256 := h b3 (by simp)
      have hrest : rest.length % 3 = 0 := by
        simp only [List.length_cons] at hlen
        omega
      have ih' := ih t hrest fun b hb => h b (by simp [hb])
      simp only [sextets, List.cons_append, unsextets, List.append_eq]
      rw [if_neg (by omega : ¬(b1 / 4 = 64 ∨ b1 % 4 * 16 + b2 / 16 = 64)),
        if_neg (by omega : ¬(b2 % 16 * 4 + b3 / 64 = 64)),
        if_neg (by omega : ¬(b3 % 64 = 64)), ih']
      have e1 : b1 / 4 * 4 + (b1 % 4 * 16 + b2 / 16) / 16 = b1 := by omega
      have e2 : (b1 % 4 * 16 + b2 / 16) % 16 * 16 +
          (b2 % 16 * 4 + b3 / 64) / 4 = b2 := by omega
      have e3 : (b2 % 16 * 4 + b3 / 64) % 4 * 64 + b3 % 64 = b3 := by omega
      cases unsextets t with
      | none => simp
      | some u =>
          simp only [Option.map_some']
          rw [e1, e2, e3]

theorem unsextets_sextets (bs : List Nat) : (∀ b ∈ bs, b < 256) →
    unsextets (sextets bs) = some bs := by
  induction bs using sextets.induct with
  | case1 => intro _; rfl
  | case2 b1 =>
      intro h
      have hb1 : b1 < 256 := h b1 (by simp)
      simp only [sextets, unsextets]
      rw [if_neg (by omega : ¬(b1 / 4 = 64 ∨ b1 % 4 * 16 = 64))]
      simp only [and_self, if_true]
      have e1 : b1 / 4 * 4 + b1 % 4 * 16 / 16 = b1 := by omega
      rw [e1]
  | case3 b1 b2 =>
      intro h
      have hb1 : b1 < 256 := h b1 (by simp)
      have hb2 : b2 < 256 := h b2 (by simp)
      simp only [sextets, unsextets]
      rw [if_neg (by omega : ¬(b1 / 4 = 64 ∨ b1 % 4 * 16 + b2 / 16 = 64)),
        if_neg (by omega : ¬(b2 % 16 * 4 = 64))]
      simp only [if_true]
      have e1 : b1 / 4 * 4 + (b1 % 4 * 16 + b2 / 16) / 16 = b1 := by omega
      have e2 : (b1 % 4 * 16 + b2 / 16) % 16 * 16 + b2 % 16 * 4 / 4 = b2 := by
        omega
      rw [e1, e2]
  | case4 b1 b2 b3 rest ih =>
      intro h
      have hb1 : b1 < 256 := h b1 (by simp)
      have hb2 : b2 < 256 := h b2 (by simp)
      have hb3 : b3 < 256 := h b3 (by simp)
      have ih' := ih fun b hb => h b (by simp [hb])
      simp only [sextets, unsextets]
      rw [if_neg (by omega : ¬(b1 / 4 = 64 ∨ b1 % 4 * 16 + b2 / 16 = 64)),
        if_neg (by omega : ¬(b2 % 16 * 4 + b3 / 64 = 64)),
        if_neg (by omega : ¬(b3 % 64 = 64)), ih']
      have e1 : b1 / 4 * 4 + (b1 % 4 * 16 + b2 / 16) / 16 = b1 := by omega
      have e2 : (b1 % 4 * 16 + b2 / 16) % 16 * 16 +
          (b2 % 16 * 4 + b3 / 64) / 4 = b2 := by omega
      have e3 : (b2 % 16 * 4 + b3 / 64) % 4 * 64 + b3 % 64 = b3 := by omega
      simp only [Option.map_some']
      rw [e1, e2, e3]

/-- Round trip of the chunking loop of the Python 2 base64 module, by
induction on the fuel. -/
theorem decodestring_encodestring_go :
    ∀ (f : Nat) (bs : List Nat), bs.length ≤ f → (∀ b ∈ bs, b < 256) →
      decodestring (encodestring_go f bs) = some bs := by
  intro f
  induction f with
  | zero =>
      intro bs hlen _
      have hbs : bs = [] := List.length_eq_zero.mp (Nat.le_zero.mp hlen)
      subst hbs
      rfl
  | succ f ih =>
      intro bs hlen hmem
      match bs with
      | [] => rfl
      | b :: rest =>
          show decodestring (b2a_base64 ((b :: rest).take 57) ++
            encodestring_go f ((b :: rest).drop 57)) = some (b :: rest)
          set c : List Nat := (b :: rest).take 57 with hc
          set d : List Nat := (b :: rest).drop 57 with hd
          have hcmem : ∀ x ∈ c, x < 256 := fun x hx =>
            hmem x (List.mem_of_mem_take hx)
          have hdmem : ∀ x ∈ d, x < 256 := fun x hx =>
            hmem x (List.mem_of_mem_drop hx)
          have h10 : b64val 10 = none := rfl
          have hfil : (b2a_base64 c ++ encodestring_go f d).filterMap b64val
              = sextets c ++ (encodestring_go f d).filterMap b64val := by
            rw [b2a_base64, List.append_assoc, List.filterMap_append,
              filterMap_b64val_map_b64char _ (sextets_le c hcmem)]
            rw [List.singleton_append, List.filterMap_cons, h10]
          have hdlen : d.length ≤ f := by
            rw [hd, List.length_drop]
            simp only [List.length_cons] at hlen ⊢
            omega
          by_cases hlong : 57 < (b :: rest).length
          · have hclen : c.length = 57 := by
              rw [hc, List.length_take]
              omega
            have hdec : decodestring (encodestring_go f d) = some d :=
              ih d hdlen hdmem
            unfold decodestring at hdec ⊢
            rw [hfil, unsextets_sextets_append c _ (by rw [hclen]) hcmem, hdec]
            simp only [Option.map_some']
            rw [hc, hd, List.take_append_drop]
          · have hdnil : d = [] := by
              rw [hd, List.drop_eq_nil_iff]
              omega
            have hcall : c = b :: rest := by
              rw [hc, List.take_of_length_le]
              omega
            have henil : encodestring_go f ([] : List Nat) = [] := by
              cases f <;> rfl
            unfold decodestring
            rw [hfil, hdnil, henil, List.filterMap_nil, List.append_nil,
              hcall]
            exact unsextets_sextets _ (hcall ▸ hcmem)

/-- Round trip of the Python 2 base64 module on byte lists. -/
theorem decodestring_encodestring (bs : List Nat) (h : ∀ b ∈ bs, b < 256) :
    decodestring (encodestring bs) = some bs :=
  decodestring_encodestring_go bs.length bs le_rfl h

/-! ## `lib/__init__.py` and `lib/encryption.py`

The SHA-256 digest is a parameter `sha` of every definition that hashes;
hex encoding of digests is dropped, since digests are only ever compared
for equality and a fixed injective re-encoding cannot change any
comparison.  The AES-256 block primitive of PyCrypto is a parameter
`E`/`D` mapping a key and one 16-byte block to one block. -/

/-- `checksum_data` from `lib/__init__.py`: SHA-256 over the given data. -/
def checksum_data (sha : List Nat → List Nat) (data : List Nat) : List Nat :=
  sha data

/-- The `while` loop of `derive_key_and_iv`, with an explicit fuel bound:
Python iterates `d_i = SHA256(d_i + password + salt)`, `d += d_i` while
`len(d) < key_length + iv_length`.  Each iteration of the real function
appends a 32-byte digest, so `goal` iterations always suffice; the fuel
only cuts runs that would diverge for a digest function of length 0. -/
def derive_loop (sha : List Nat → List Nat) (password salt : List Nat)
    (goal : Nat) : Nat → List Nat → List Nat → List Nat
  | 0, d, _ => d
  | fuel + 1, d, d_i =>
      if d.length < goal then
        let d_i2 := sha (d_i ++ password ++ salt)
        derive_loop sha password salt goal fuel (d ++ d_i2) d_i2
      else d

/-- `derive_key_and_iv` from `lib/encryption.py`. -/
def derive_key_and_iv (sha : List Nat → List Nat) (password salt : List Nat)
    (key_length iv_length : Nat) : List Nat × List Nat :=
  let d := derive_loop sha password salt (key_length + iv_length)
    (key_length + iv_length) [] []
  (d.take key_length, (d.drop key_length).take iv_length)

/-- One `cipher.encrypt(chunk)` call on a PyCrypto CBC cipher object: the
chunk is consumed 16 bytes at a time; each plaintext block is XORed with
the previous ciphertext block (initially the IV) and passed through the
block primitive `E`.  Returns the ciphertext and the new chaining block.
A final chunk shorter than one block would make PyCrypto raise
`ValueError`; the model processes it as a single short block (the case is
unreachable: the cipher is only ever fed multiples of the block size). -/
def cbc_encrypt_chunk (E : List Nat → List Nat) (prev : List Nat) :
    List Nat → List Nat × List Nat
  | [] => ([], prev)
  | b1 :: b2 :: b3 :: b4 :: b5 :: b6 :: b7 :: b8 ::
      b9 :: b10 :: b11 :: b12 :: b13 :: b14 :: b15 :: b16 :: rest =>
      let c := E (List.zipWith Nat.xor
        [b1, b2, b3, b4, b5, b6, b7, b8, b9, b10, b11, b12, b13, b14, b15, b16]
        prev)
      let r := cbc_encrypt_chunk E c rest
      (c ++ r.1, r.2)
  | short =>
      let c := E (List.zipWith Nat.xor short prev)
      (c, c)

/-- One `cipher.decrypt(chunk)` call on a PyCrypto CBC cipher object: each
ciphertext block is passed through the block primitive `D` and XORed with
the previous ciphertext block (initially the IV); the chaining block
becomes the last ciphertext block.  A final short chunk is processed as a
single short block (unreachable, as for `cbc_encrypt_chunk`). -/
def cbc_decrypt_chunk (D : List Nat → List Nat) (prev : List Nat) :
    List Nat → List Nat × List Nat
  | [] => ([], prev)
  | b1 :: b2 :: b3 :: b4 :: b5 :: b6 :: b7 :: b8 ::
      b9 :: b10 :: b11 :: b12 :: b13 :: b14 :: b15 :: b16 :: rest =>
      let blk :=
        [b1, b2, b3, b4, b5, b6, b7, b8, b9, b10, b11, b12, b13, b14, b15, b16]
      let p := List.zipWith Nat.xor (D blk) prev
      let r := cbc_decrypt_chunk D blk rest
      (p ++ r.1, r.2)
  | short => (List.zipWith Nat.xor (D short) prev, short)

theorem cbc_decrypt_chunk_nil (D : List Nat → List Nat) (prev : List Nat) :
    cbc_decrypt_chunk D prev [] = ([], prev) := rfl

/-- The `while` loop of `encrypt` from `lib/encryption.py`: read up to
`read_size` bytes; the first chunk that is empty or not a multiple of the
block size is PKCS#7-padded (`(block_size - len % block_size) or
block_size` bytes, each equal to the padding length) and ends the loop;
full chunks are encrypted through the chained CBC cipher.  Structurally
recursive on an explicit fuel; every chunk read in the recursive branch
is nonempty, so any fuel above the input length is enough
(`encrypt_loop` below supplies the input length plus one). -/
def encrypt_loop_go (E : List Nat → List Nat) (read_size : Nat) :
    Nat → List Nat → List Nat → List Nat
  | 0, _, _ => []
  | fuel + 1, prev, remaining =>
      if (remaining.take read_size).length = 0 ∨
          (remaining.take read_size).length % 16 ≠ 0 then
        let chunk := remaining.take read_size
        let padding_length :=
          if chunk.length % 16 = 0 then 16 else 16 - chunk.length % 16
        (cbc_encrypt_chunk E prev
          (chunk ++ List.replicate padding_length padding_length)).1
      else
        let r := cbc_encrypt_chunk E prev (remaining.take read_size)
        r.1 ++ encrypt_loop_go E read_size fuel r.2 (remaining.drop read_size)

/-- The `while` loop of `encrypt`, entered with the full input stream. -/
def encrypt_loop (E : List Nat → List Nat) (read_size : Nat)
    (prev remaining : List Nat) : List Nat :=
  encrypt_loop_go E read_size (remaining.length + 1) prev remaining

/-- `encrypt` from `lib/encryption.py`, with the salt made an explicit
argument in place of `Random.new().read(block_size)`.  Returns the bytes
written to the output stream together with the two returned hex digests
(plaintext checksum first, ciphertext checksum second); the incremental
`update` calls hash exactly the plaintext read and the salt followed by
every ciphertext chunk written. -/
def encrypt (sha : List Nat → List Nat) (E : List Nat → List Nat → List Nat)
    (password salt data : List Nat) (key_length : Nat := 32)
    (read_blocks : Nat := 1024) : List Nat × List Nat × List Nat :=
  let ki := derive_key_and_iv sha password salt key_length 16
  let body := encrypt_loop (E ki.1) (read_blocks * 16) ki.2 data
  (salt ++ body, sha data, sha (salt ++ body))

/-- The `while` loop of `decrypt` from `lib/encryption.py`, including its
one-chunk lookahead: the chunk decrypted in the previous iteration is
only written after the next read, and when the freshly decrypted chunk is
empty the pending chunk is stripped of `ord(chunk[-1])` trailing padding
bytes and the loop ends.  `none` models the `IndexError` of
`ord(chunk[-1])` on an empty pending chunk; a Python slice `chunk[:-0]`
is empty, hence the special case for a zero padding byte.  Returns the
bytes written and the bytes consumed from the input stream.  Structurally
recursive on an explicit fuel; every chunk read in the recursive branch
is nonempty, so any fuel above the input length is enough
(`decrypt_loop` below supplies the input length plus one). -/
def decrypt_loop_go (D : List Nat → List Nat) (read_size : Nat) :
    Nat → List Nat → List Nat → List Nat → Option (List Nat × List Nat)
  | 0, _, _, _ => none
  | fuel + 1, prev, pending, remaining =>
      if (cbc_decrypt_chunk D prev (remaining.take read_size)).1 = [] then
        match pending.getLast? with
        | none => none
        | some padding_length =>
            if padding_length = 0 then some ([], remaining.take read_size)
            else some (pending.take (pending.length - padding_length),
              remaining.take read_size)
      else
        (decrypt_loop_go D read_size fuel
            (cbc_decrypt_chunk D prev (remaining.take read_size)).2
            (cbc_decrypt_chunk D prev (remaining.take read_size)).1
            (remaining.drop read_size)).map
          (fun w => (pending ++ w.1, remaining.take read_size ++ w.2))

/-- The `while` loop of `decrypt`, entered with the stream after the
salt. -/
def decrypt_loop (D : List Nat → List Nat) (read_size : Nat)
    (prev pending remaining : List Nat) : Option (List Nat × List Nat) :=
  decrypt_loop_go D read_size (remaining.length + 1) prev pending remaining

/-- `decrypt` from `lib/encryption.py`: read a 16-byte salt, derive key
and IV from the password and the salt, then run the lookahead loop.
Returns the bytes written and the two returned hex digests (ciphertext
checksum first, plaintext checksum second); the incremental `update`
calls hash the salt followed by every ciphertext chunk read, and every
plaintext chunk written. -/
def decrypt (sha : List Nat → List Nat) (D : List Nat → List Nat → List Nat)
    (password input : List Nat) (key_length : Nat := 32)
    (read_blocks : Nat := 1024) :
    Option (List Nat × List Nat × List Nat) :=
  let salt := input.take 16
  let ki := derive_key_and_iv sha password salt key_length 16
  (decrypt_loop (D ki.1) (read_blocks * 16) ki.2 [] (input.drop 16)).map
    (fun w => (w.1, sha (salt ++ w.2), sha w.1))
/-! ## Data model (`cloud/__init__.py`, `database/__init__.py`) -/

/-- `METADATA_VERSION` from `cloud/__init__.py`. -/
def METADATA_VERSION : Nat := 1

/-- POSIX attributes captured by `os.stat`. -/
structure Stat where
  st_mode : Nat
  st_uid : Nat
  st_gid : Nat
  st_atime : Nat
  st_mtime : Nat
  st_ctime : Nat
  deriving Repr, DecidableEq

/-- A metadata record, the dictionary built by `Cloud._create_metadata`. -/
structure Metadata where
  metadata_version : Nat
  provider : List Nat
  key : List Nat
  name : List Nat
  path : List Nat
  size : Nat
  mode : Nat
  uid : Nat
  gid : Nat
  atime : Nat
  mtime : Nat
  ctime : Nat
  checksum : List Nat
  encryption_key : Option (List Nat)
  encrypted_size : Nat
  encrypted_checksum : List Nat
  deriving Repr, DecidableEq

/-- Payload of the errors raised in `cloud/__init__.py`; the formatted
message strings are abstracted to their distinguishing content. -/
inductive ErrorMsg where
  | no_metadata
  | invalid_metadata
  | no_metadata_version
  | wrong_metadata_version (found : Nat)
  | wrong_encrypted_checksum (found expected : List Nat)
  | wrong_checksum (found expected : List Nat)
  deriving Repr, DecidableEq

/-- The exceptions surfaced by the engine: `GPGError` (which carries only
the gpg status object, not the offending key), `MetadataError(key, msg)`,
its subclass `DataError(key, msg)`, and the Python exceptions that can
escape the pipelines (`binascii.Error` from base64, `IndexError` from
`ord("")`); `not_found` stands for fetching a missing data-bucket key,
whose concrete Python outcome is back-end specific. -/
inductive CloudError where
  | gpg_error
  | metadata_error (key : List Nat) (msg : ErrorMsg)
  | data_error (key : List Nat) (msg : ErrorMsg)
  | value_error
  | index_error
  | not_found
  deriving Repr, DecidableEq

/-- The three encryption methods accepted by `Provider.__init__`; the
dispatch in `Cloud` compares the configured string against `"symmetric"`
and `"cryptoengine"` and falls back to gpg. -/
inductive EncryptionMethod where
  | gpg
  | symmetric
  | cryptoengine
  deriving Repr, DecidableEq

/-- Result of `json.loads` on a decrypted metadata object, as consumed by
`Cloud.sync`: the value of the `"metadata_version"` entry if present, and
the record the dictionary denotes. -/
structure Parsed where
  metadata_version : Option Nat
  record : Metadata

/-- The randomness consumed by one store: `generate_random_password()`
and the 16-byte salt `Random.new().read(block_size)` drawn inside
`encrypt`. -/
structure Entropy where
  password : List Nat
  salt : List Nat

/-- Engine configuration and external collaborators: the SHA-256 digest,
the AES block primitive (encrypt/decrypt directions), the gpg pipeline
(`None` models a failed `ok` flag), the JSON serializer and parser, the
metadata provider name `self.metadata_provider.__name__`, and the data
provider's configured `encryption_method`. -/
structure Cfg where
  sha : List Nat → List Nat
  aesE : List Nat → List Nat → List Nat
  aesD : List Nat → List Nat → List Nat
  gpg_encrypt : List Nat → Option (List Nat)
  gpg_decrypt : List Nat → Option (List Nat)
  json_dumps : Metadata → List Nat
  json_loads : List Nat → Option Parsed
  metadata_provider_name : List Nat
  encryption_method : EncryptionMethod

/-- A key-addressed blob bucket, modelled as an association list. -/
abbrev Bucket := List (List Nat × List Nat)

/-- `store(key, bytes)` on a back-end bucket: overwrite semantics. -/
def bucket_store (b : Bucket) (k v : List Nat) : Bucket :=
  b.filter (fun e => e.1 ≠ k) ++ [(k, v)]

/-- `retrieve(key)` on a back-end bucket. -/
def bucket_get (b : Bucket) (k : List Nat) : Option (List Nat) :=
  (b.find? (fun e => e.1 = k)).map (·.2)

/-- Removal of a key from a back-end bucket. -/
def bucket_delete (b : Bucket) (k : List Nat) : Bucket :=
  b.filter (fun e => e.1 ≠ k)

/-- The three storage tiers an engine instance operates on: the metadata
bucket, the data bucket, and the local index. -/
structure CloudState where
  metadata_bucket : Bucket
  data_bucket : Bucket
  db : List Metadata

namespace MetaDataDB

/-- `MetaDataDB.update` from `database/__init__.py`:
`self._metadata.upsert(metadata, ["name", "key"])` — every existing row
whose `name` and `key` columns match is overwritten, otherwise the row is
inserted. -/
def update (db : List Metadata) (m : Metadata) : List Metadata :=
  if db.any (fun r => r.name = m.name ∧ r.key = m.key) then
    db.map (fun r => if r.name = m.name ∧ r.key = m.key then m else r)
  else db ++ [m]

/-- `MetaDataDB.find_one(provider=..., checksum=...)` as called by
`Cloud.store` and `Cloud.delete` for the dedup and delete decisions. -/
def find_one (db : List Metadata) (provider checksum : List Nat) :
    Option Metadata :=
  db.find? (fun r => r.provider = provider ∧ r.checksum = checksum)

/-- `MetaDataDB.delete(key)` with no provider argument, as called by
`Cloud.delete`: removes every row with the given `key`, whatever its
provider. -/
def delete (db : List Metadata) (key : List Nat) : List Metadata :=
  db.filter (fun r => r.key ≠ key)

/-- `MetaDataDB.drop(provider=...)` as called by `Cloud.sync`. -/
def drop (db : List Metadata) (provider : List Nat) : List Metadata :=
  db.filter (fun r => r.provider ≠ provider)

end MetaDataDB

/-- Python `str()` applied to an optional string: `str(None)` is the
four-character string `"None"`, which is how a null `encryption_key`
reaches `derive_key_and_iv` as a password. -/
def python_str (k : Option (List Nat)) : List Nat :=
  match k with
  | some s => s
  | none => [78, 111, 110, 101]

/-- Result dictionary of the `encrypt_data` task in
`cryptoengine/server.py`. -/
structure EncryptTaskResult where
  checksum : List Nat
  encrypted_data : List Nat
  encrypted_checksum : List Nat

/-- `encrypt_data` from `cryptoengine/server.py`: the worker base64-DECODES
its `base64_data` argument, encrypts the decoded bytes, and returns the
base64-encoded ciphertext together with its checksum and the plaintext
checksum of the decoded data.  `none` models a `binascii.Error` escaping
the task when the argument is not valid base64. -/
def encrypt_data (sha : List Nat → List Nat)
    (aesE : List Nat → List Nat → List Nat) (salt : List Nat)
    (base64_data encryption_key : List Nat) : Option EncryptTaskResult :=
  match decodestring base64_data with
  | none => none
  | some data =>
      let r := encrypt sha aesE encryption_key salt data
      let base64_encrypted_data := encodestring r.1
      some { checksum := r.2.1,
             encrypted_data := base64_encrypted_data,
             encrypted_checksum := checksum_data sha base64_encrypted_data }

/-- Result dictionary of the `decrypt_data` task in
`cryptoengine/server.py`. -/
structure DecryptTaskResult where
  encrypted_checksum : List Nat
  data : List Nat
  checksum : List Nat

/-- `decrypt_data` from `cryptoengine/server.py`: checksum the base64
input, decode it, decrypt, and return the decrypted data base64-ENCODED
together with its plaintext checksum. -/
def decrypt_data (sha : List Nat → List Nat)
    (aesD : List Nat → List Nat → List Nat)
    (base64_encrypted_data encryption_key : List Nat) :
    Option DecryptTaskResult :=
  let encrypted_checksum := checksum_data sha base64_encrypted_data
  match decodestring base64_encrypted_data with
  | none => none
  | some encrypted_data =>
      match decrypt sha aesD encryption_key encrypted_data with
      | none => none
      | some w =>
          some { encrypted_checksum := encrypted_checksum,
                 data := encodestring w.1,
                 checksum := w.2.2 }

namespace Cloud

/-- The quadruple produced by the `Cloud._encrypt_*` helpers (and reused
from an old record in the dedup branch of `store`, where no ciphertext is
produced). -/
structure EncryptResult where
  encryption_key : Option (List Nat)
  encrypted_data : Option (List Nat)
  encrypted_size : Nat
  encrypted_checksum : List Nat

/-- `Cloud._encrypt_gpg`: the gpg pipeline stores a null encryption key
and hashes the raw OpenPGP bytes. -/
def encrypt_gpg (cfg : Cfg) (data : List Nat) :
    Except CloudError EncryptResult :=
  match cfg.gpg_encrypt data with
  | none => .error .gpg_error
  | some c =>
      .ok { encryption_key := none, encrypted_data := some c,
            encrypted_size := c.length,
            encrypted_checksum := checksum_data cfg.sha c }

/-- `Cloud._encrypt_symmetric`: encrypt with a fresh random password and
salt (the entropy argument), base64-encode the ciphertext stream; size
and checksum cover the base64 bytes. -/
def encrypt_symmetric (cfg : Cfg) (ent : Entropy) (data : List Nat) :
    EncryptResult :=
  let encrypted_data := (encrypt cfg.sha cfg.aesE ent.password ent.salt data).1
  let base64_data := encodestring encrypted_data
  { encryption_key := some ent.password, encrypted_data := some base64_data,
    encrypted_size := base64_data.length,
    encrypted_checksum := checksum_data cfg.sha base64_data }

/-- `Cloud._encrypt_cryptoengine`: delegate to the `encrypt_data` worker
task, passing the RAW plaintext where the worker expects base64 input. -/
def encrypt_cryptoengine (cfg : Cfg) (ent : Entropy) (data : List Nat) :
    Except CloudError EncryptResult :=
  match encrypt_data cfg.sha cfg.aesE ent.salt data ent.password with
  | none => .error .value_error
  | some r =>
      .ok { encryption_key := some ent.password,
            encrypted_data := some r.encrypted_data,
            encrypted_size := r.encrypted_data.length,
            encrypted_checksum := r.encrypted_checksum }

/-- `Cloud._decrypt_gpg`: returns the decrypted bytes and their
checksum. -/
def decrypt_gpg (cfg : Cfg) (encrypted_data : List Nat) :
    Except CloudError (List Nat × List Nat) :=
  match cfg.gpg_decrypt encrypted_data with
  | none => .error .gpg_error
  | some d => .ok (d, checksum_data cfg.sha d)

/-- `Cloud._decrypt_symmetric`: base64-decode, then run the stream
decryptor; returns the decrypted bytes and the plaintext checksum the
decryptor reports.  The `str()` conversion that `decrypt` applies to its
password argument is modelled at this boundary by `python_str`. -/
def decrypt_symmetric (cfg : Cfg) (encrypted_data : List Nat)
    (encryption_key : Option (List Nat)) :
    Except CloudError (List Nat × List Nat) :=
  match decodestring encrypted_data with
  | none => .error .value_error
  | some f =>
      match decrypt cfg.sha cfg.aesD (python_str encryption_key) f with
      | none => .error .index_error
      | some w => .ok (w.1, w.2.2)

/-- `Cloud._decrypt_cryptoengine`: delegate to the `decrypt_data` worker
task; the returned `data` field is base64-encoded plaintext. -/
def decrypt_cryptoengine (cfg : Cfg) (encrypted_data : List Nat)
    (encryption_key : Option (List Nat)) :
    Except CloudError (List Nat × List Nat) :=
  match decrypt_data cfg.sha cfg.aesD encrypted_data
      (python_str encryption_key) with
  | none => .error .value_error
  | some r => .ok (r.data, r.checksum)

/-- `os.path.basename`: the part of the path after the last slash. -/
def basename (filename : List Nat) : List Nat :=
  (filename.reverse.takeWhile (fun c => c ≠ 47)).reverse

/-- `Cloud._create_metadata`.  `store` and `store_from_filename` always
supply the filename, checksum and encrypted checksum arguments, so the
`None` defaults of those parameters in the source are dropped; a missing
`stat_info` leaves the POSIX attributes 0. -/
def create_metadata (provider_name key filename : List Nat) (size : Nat)
    (stat_info : Option Stat) (checksum : List Nat)
    (encryption_key : Option (List Nat)) (encrypted_size : Nat)
    (encrypted_checksum : List Nat) : Metadata :=
  { metadata_version := METADATA_VERSION
    provider := provider_name
    key := key
    name := basename filename
    path := filename
    size := size
    mode := (stat_info.map Stat.st_mode).getD 0
    uid := (stat_info.map Stat.st_uid).getD 0
    gid := (stat_info.map Stat.st_gid).getD 0
    atime := (stat_info.map Stat.st_atime).getD 0
    mtime := (stat_info.map Stat.st_mtime).getD 0
    ctime := (stat_info.map Stat.st_ctime).getD 0
    checksum := checksum
    encryption_key := encryption_key
    encrypted_size := encrypted_size
    encrypted_checksum := encrypted_checksum }

/-- `Cloud.store`: compute entry key `SHA256(data + cloud_filename)` and
plaintext checksum; consult the index for a record with the same
`(provider, checksum)` and reuse its encryption key, size and checksum
without producing ciphertext; otherwise encrypt with the configured
method.  The metadata JSON is always gpg-encrypted.  The metadata object
is written under the entry key; the data object is written under the
checksum only on a fresh store; finally the index row is upserted. -/
def store (cfg : Cfg) (ent : Entropy) (s : CloudState)
    (data cloud_filename : List Nat) (stat_info : Option Stat) :
    Except CloudError (CloudState × Metadata) := do
  let key := checksum_data cfg.sha (data ++ cloud_filename)
  let checksum := checksum_data cfg.sha data
  let size := data.length
  let old_metadata :=
    MetaDataDB.find_one s.db cfg.metadata_provider_name checksum
  let er ← match old_metadata with
    | some old =>
        pure { encryption_key := old.encryption_key, encrypted_data := none,
               encrypted_size := old.encrypted_size,
               encrypted_checksum := old.encrypted_checksum : EncryptResult }
    | none =>
        match cfg.encryption_method with
        | .symmetric => pure (encrypt_symmetric cfg ent data)
        | .cryptoengine => encrypt_cryptoengine cfg ent data
        | .gpg => encrypt_gpg cfg data
  let metadata := create_metadata cfg.metadata_provider_name key
    cloud_filename size stat_info checksum er.encryption_key
    er.encrypted_size er.encrypted_checksum
  match cfg.gpg_encrypt (cfg.json_dumps metadata) with
  | none => .error .gpg_error
  | some encrypted_metadata =>
      let s1 := { s with
        metadata_bucket := bucket_store s.metadata_bucket key
          encrypted_metadata }
      let s2 := match old_metadata, er.encrypted_data with
        | none, some ed =>
            { s1 with data_bucket := bucket_store s1.data_bucket checksum ed }
        | _, _ => s1
      .ok ({ s2 with db := MetaDataDB.update s2.db metadata }, metadata)

/-- `Cloud.retrieve`: fetch the data object under the record's checksum,
verify the encrypted checksum, decrypt with the pipeline selected by the
CONFIGURED `encryption_method` (passing the record's `encryption_key` to
the symmetric and cryptoengine pipelines), verify the plaintext
checksum, return the data. -/
def retrieve (cfg : Cfg) (s : CloudState) (metadata : Metadata) :
    Except CloudError (List Nat) := do
  match bucket_get s.data_bucket metadata.checksum with
  | none => .error .not_found
  | some encrypted_data =>
      let encrypted_checksum := checksum_data cfg.sha encrypted_data
      if encrypted_checksum ≠ metadata.encrypted_checksum then
        .error (.data_error metadata.checksum
          (.wrong_encrypted_checksum encrypted_checksum
            metadata.encrypted_checksum))
      else do
        let dc ← match cfg.encryption_method with
          | .symmetric =>
              decrypt_symmetric cfg encrypted_data metadata.encryption_key
          | .cryptoengine =>
              decrypt_cryptoengine cfg encrypted_data metadata.encryption_key
          | .gpg => decrypt_gpg cfg encrypted_data
        if dc.2 ≠ metadata.checksum then
          .error (.data_error metadata.checksum
            (.wrong_checksum dc.2 metadata.checksum))
        else .ok dc.1

/-- `Cloud.retrieve_to_filename`, observed through the error raised and
the content left at the target path (second component, `none` when the
target file was never created).  The ciphertext is staged in a
`NamedTemporaryFile`, but the `_decrypt_file_*` helpers write decrypted
plaintext directly to the target `filename` before the plaintext
checksum is compared; gnupg's `decrypt_file` writes its output file only
on success, and on a worker or base64 failure the target file has not
been opened yet.  The final `chmod`/`utime` calls do not change the
content and are not modelled. -/
def retrieve_to_filename (cfg : Cfg) (s : CloudState) (metadata : Metadata) :
    Except CloudError Unit × Option (List Nat) :=
  match bucket_get s.data_bucket metadata.checksum with
  | none => (.error .not_found, none)
  | some encrypted_data =>
      let encrypted_checksum := checksum_data cfg.sha encrypted_data
      if encrypted_checksum ≠ metadata.encrypted_checksum then
        (.error (.data_error metadata.checksum
          (.wrong_encrypted_checksum encrypted_checksum
            metadata.encrypted_checksum)), none)
      else
        match cfg.encryption_method with
        | .symmetric =>
            match decodestring encrypted_data with
            | none => (.error .value_error, none)
            | some f =>
                match decrypt cfg.sha cfg.aesD
                    (python_str metadata.encryption_key) f with
                | none => (.error .index_error, some [])
                | some w =>
                    if w.2.2 ≠ metadata.checksum then
                      (.error (.data_error metadata.checksum
                        (.wrong_checksum w.2.2 metadata.checksum)), some w.1)
                    else (.ok (), some w.1)
        | .cryptoengine =>
            match decrypt_data cfg.sha cfg.aesD encrypted_data
                (python_str metadata.encryption_key) with
            | none => (.error .value_error, none)
            | some r =>
                if r.checksum ≠ metadata.checksum then
                  (.error (.data_error metadata.checksum
                    (.wrong_checksum r.checksum metadata.checksum)),
                    some r.data)
                else (.ok (), some r.data)
        | .gpg =>
            match cfg.gpg_decrypt encrypted_data with
            | none => (.error .gpg_error, none)
            | some d =>
                let checksum := checksum_data cfg.sha d
                if checksum ≠ metadata.checksum then
                  (.error (.data_error metadata.checksum
                    (.wrong_checksum checksum metadata.checksum)), some d)
                else (.ok (), some d)

/-- `Cloud.delete`: remove the metadata object at the record's entry key,
remove every index row with that entry key (`database.delete` is called
without a provider filter), then remove the data object at the record's
checksum only if no index row with the configured metadata provider name
and the same checksum remains. -/
def delete (cfg : Cfg) (s : CloudState) (metadata : Metadata) : CloudState :=
  let mb := bucket_delete s.metadata_bucket metadata.key
  let db2 := MetaDataDB.delete s.db metadata.key
  let dbucket :=
    if (MetaDataDB.find_one db2 cfg.metadata_provider_name
        metadata.checksum).isNone then
      bucket_delete s.data_bucket metadata.checksum
    else s.data_bucket
  { metadata_bucket := mb, data_bucket := dbucket, db := db2 }

/-- The `for key, encrypted_metadata in ...list().items()` loop body of
`Cloud.sync`. -/
def sync_loop (cfg : Cfg) (db : List Metadata) :
    List (List Nat × List Nat) → Except CloudError (List Metadata)
  | [] => .ok db
  | (key, encrypted_metadata) :: rest =>
      match cfg.gpg_decrypt encrypted_metadata with
      | none => .error .gpg_error
      | some d =>
          if d = [] then .error (.metadata_error key .no_metadata)
          else
            match cfg.json_loads d with
            | none => .error (.metadata_error key .invalid_metadata)
            | some parsed =>
                match parsed.metadata_version with
                | none => .error (.metadata_error key .no_metadata_version)
                | some v =>
                    if v ≠ METADATA_VERSION then
                      .error (.metadata_error key (.wrong_metadata_version v))
                    else sync_loop cfg (MetaDataDB.update db parsed.record) rest

/-- `Cloud.sync`: drop all index rows of the configured metadata
provider, then decrypt, parse and validate every metadata object and
upsert it into the index. -/
def sync (cfg : Cfg) (s : CloudState) : Except CloudError CloudState :=
  (sync_loop cfg (MetaDataDB.drop s.db cfg.metadata_provider_name)
      s.metadata_bucket).map
    (fun db => { s with db := db })

end Cloud

/-- Back-end errors: `ENOENT` from a missing remote path. -/
inductive BackEndError where
  | enoent
  deriving Repr, DecidableEq

namespace Aws

/-- `Aws.delete` from `cloud/aws.py`: `get_key` returns `None` for a
missing key and the delete call is skipped, so deleting a missing key
never fails. -/
def delete (bucket : Bucket) (key : List Nat) : Except BackEndError Bucket :=
  .ok (bucket_delete bucket key)

end Aws

namespace Sftp

/-- `Sftp.delete` from `cloud/sftp.py`: an unguarded
`self.connection.remove(path)`; paramiko's `remove` raises
`IOError(ENOENT)` when the remote path does not exist. -/
def delete (bucket : Bucket) (key : List Nat) : Except BackEndError Bucket :=
  if (bucket_get bucket key).isSome then .ok (bucket_delete bucket key)
  else .error .enoent

end Sftp
/-! ## Concrete fixtures used by witnesses and counterexamples

The hash is instantiated with the identity function (injective, so a
checksum comparison is a byte comparison), the block cipher with the
identity block primitive (its own inverse under CBC), and the gpg
pipeline with the identity encryption `some`. -/

/-- Engine configuration with identity collaborators and the gpg
method. -/
def cfg_gpg_id : Cfg :=
  { sha := id, aesE := fun _ b => b, aesD := fun _ b => b,
    gpg_encrypt := some, gpg_decrypt := some, json_dumps := fun _ => [],
    json_loads := fun _ => none, metadata_provider_name := [65],
    encryption_method := .gpg }

/-- The same configuration with the symmetric method. -/
def cfg_sym_id : Cfg := { cfg_gpg_id with encryption_method := .symmetric }

/-- The same configuration with the cryptoengine method. -/
def cfg_ce_id : Cfg := { cfg_gpg_id with encryption_method := .cryptoengine }

/-- An empty three-tier state. -/
def state_empty : CloudState :=
  { metadata_bucket := [], data_bucket := [], db := [] }

/-- Concrete entropy: password `[5]`, a 16-byte salt. -/
def ent_ex : Entropy := { password := [5], salt := List.replicate 16 1 }

/-- A concrete metadata record. -/
def md0 : Metadata :=
  { metadata_version := 1, provider := [65], key := [1], name := [110],
    path := [110], size := 0, mode := 0, uid := 0, gid := 0, atime := 0,
    mtime := 0, ctime := 0, checksum := [9], encryption_key := none,
    encrypted_size := 0, encrypted_checksum := [7] }

/-! ## C8 — key derivation against the reference definition -/

/-- Digest sequence of the specified key derivation: `D_0` is the empty
string and `D_i = SHA256(D_(i-1) ‖ password ‖ salt)`.  This definition
follows the words of the specification and is compared against
`derive_key_and_iv`, which is translated from the source. -/
def spec_digest (sha : List Nat → List Nat) (password salt : List Nat) :
    Nat → List Nat
  | 0 => []
  | i + 1 => sha (spec_digest sha password salt i ++ password ++ salt)

/-- Concatenation `D_1 ‖ … ‖ D_n` of the specified digest sequence. -/
def spec_digest_concat (sha : List Nat → List Nat)
    (password salt : List Nat) : Nat → List Nat
  | 0 => []
  | n + 1 => spec_digest_concat sha password salt n ++
      spec_digest sha password salt (n + 1)

/-- C8: for a 32-byte digest function, `derive_key_and_iv` with key
length 32 and IV length 16 equals the reference definition — the
concatenation of the iterated digests, sliced as `key = D[0..32]`,
`iv = D[32..48]` — where two digests are concatenated, two being the
least number reaching the 48 required bytes. -/
theorem C8_derive_key_and_iv_spec (sha : List Nat → List Nat)
    (password salt : List Nat) (hsha : ∀ x, (sha x).length = 32) :
    derive_key_and_iv sha password salt 32 16 =
      ((spec_digest_concat sha password salt 2).take 32,
       ((spec_digest_concat sha password salt 2).drop 32).take 16) ∧
    48 ≤ (spec_digest_concat sha password salt 2).length ∧
    (spec_digest_concat sha password salt 1).length < 48 := by
  have l1 : (sha (password ++ salt)).length = 32 := hsha _
  have l2 : (sha (sha (password ++ salt) ++ password ++ salt)).length = 32 :=
    hsha _
  have key : derive_loop sha password salt 48 48 [] [] =
      sha (password ++ salt) ++
        sha (sha (password ++ salt) ++ password ++ salt) := by
    have s1 : derive_loop sha password salt 48 48 [] [] =
        if ([] : List Nat).length < 48 then
          derive_loop sha password salt 48 47 (sha (password ++ salt))
            (sha (password ++ salt))
        else [] := rfl
    rw [s1, if_pos (by simp)]
    have s2 : derive_loop sha password salt 48 47 (sha (password ++ salt))
          (sha (password ++ salt)) =
        if (sha (password ++ salt)).length < 48 then
          derive_loop sha password salt 48 46
            (sha (password ++ salt) ++
              sha (sha (password ++ salt) ++ password ++ salt))
            (sha (sha (password ++ salt) ++ password ++ salt))
        else sha (password ++ salt) := rfl
    rw [s2, if_pos (by omega)]
    have s3 : derive_loop sha password salt 48 46
          (sha (password ++ salt) ++
            sha (sha (password ++ salt) ++ password ++ salt))
          (sha (sha (password ++ salt) ++ password ++ salt)) =
        if (sha (password ++ salt) ++
            sha (sha (password ++ salt) ++ password ++ salt)).length < 48 then
          derive_loop sha password salt 48 45
            ((sha (password ++ salt) ++
              sha (sha (password ++ salt) ++ password ++ salt)) ++
              sha (sha (sha (password ++ salt) ++ password ++ salt) ++
                password ++ salt))
            (sha (sha (sha (password ++ salt) ++ password ++ salt) ++
              password ++ salt))
        else sha (password ++ salt) ++
          sha (sha (password ++ salt) ++ password ++ salt) := rfl
    rw [s3, if_neg (by simp only [List.length_append]; omega)]
  have hspec : spec_digest_concat sha password salt 2 =
      sha (password ++ salt) ++
        sha (sha (password ++ salt) ++ password ++ salt) := rfl
  have hspec1 : spec_digest_concat sha password salt 1 =
      sha (password ++ salt) := by
    show [] ++ sha ([] ++ password ++ salt) = sha (password ++ salt)
    simp
  refine ⟨?_, ?_, ?_⟩
  · show (let d := derive_loop sha password salt 48 48 [] [];
      (d.take 32, (d.drop 32).take 16)) = _
    rw [key, hspec]
  · rw [hspec]
    simp only [List.length_append]
    omega
  · rw [hspec1]
    omega

/-- Concrete 32-byte digest function for the C8 witness. -/
def sha32ex : List Nat → List Nat := fun y => List.replicate 32 (y.length % 256)

/-- Witness for C8 at a concrete digest function, password and salt. -/
theorem C8_derive_key_and_iv_spec_witness :
    (∀ x : List Nat, (sha32ex x).length = 32) ∧
    (derive_key_and_iv sha32ex [1] [2] 32 16 =
      ((spec_digest_concat sha32ex [1] [2] 2).take 32,
       ((spec_digest_concat sha32ex [1] [2] 2).drop 32).take 16) ∧
    48 ≤ (spec_digest_concat sha32ex [1] [2] 2).length ∧
    (spec_digest_concat sha32ex [1] [2] 1).length < 48) :=
  ⟨fun x => by simp [sha32ex],
    C8_derive_key_and_iv_spec sha32ex [1] [2] (fun x => by simp [sha32ex])⟩

/-! ## C9 — back-end delete of a missing key -/

/-- C9 (amended): the object-bucket back end (`Aws.delete`) removes the
key if present and never fails, but the remote-file-server back end
(`Sftp.delete`) raises a back-end error exactly when the key is absent:
deleting a missing key is an error there. -/
theorem C9_delete_missing_key (bucket : Bucket) (key : List Nat) :
    Aws.delete bucket key = .ok (bucket_delete bucket key) ∧
    (Sftp.delete bucket key = .error .enoent ↔
      bucket_get bucket key = none) := by
  refine ⟨rfl, ?_⟩
  unfold Sftp.delete
  rcases hg : bucket_get bucket key with _ | v <;> simp [hg]

/-- Counterexample to C9 as stated: `Sftp.delete` on an absent key is an
error. -/
theorem C9_sftp_delete_missing_errors :
    Sftp.delete [] [0] = .error .enoent := rfl

/-! ## C5 — index upsert key -/

/-- Counterexample to C5 as stated: two records that differ only in
`provider` (the back-end id) but share `name` and entry `key` do NOT
coexist — the second upsert overwrites the first, because the upsert
matches on `(name, key)`, not `(back_end_id, entry_key)`. -/
theorem C5_cross_provider_overwrite :
    MetaDataDB.update (MetaDataDB.update [] md0) { md0 with provider := [66] }
      = [{ md0 with provider := [66] }] ∧
    md0.provider ≠ [66] := by
  exact ⟨rfl, by decide⟩

/-- C5 (amended): the upsert key of `MetaDataDB.update` is
`(name, key)`: the upserted record is always present afterwards, a row
differing from it in `name` or `key` is preserved, and every row that
matches it on both columns — even one with a different back-end id — has
been overwritten by it.  Two records with different paths and the same
basename therefore never collide as long as their entry keys differ. -/
theorem C5_upsert_name_key (db : List Metadata) (m r : Metadata)
    (hr : r ∈ db) :
    m ∈ MetaDataDB.update db m ∧
    (¬(r.name = m.name ∧ r.key = m.key) → r ∈ MetaDataDB.update db m) ∧
    (∀ x ∈ MetaDataDB.update db m, x.name = m.name → x.key = m.key →
      x = m) := by
  unfold MetaDataDB.update
  by_cases hany : db.any (fun r => r.name = m.name ∧ r.key = m.key) = true
  · simp only [hany, if_true]
    obtain ⟨a, ha, hpa⟩ := List.any_eq_true.mp hany
    have hpa' : a.name = m.name ∧ a.key = m.key := of_decide_eq_true hpa
    refine ⟨?_, ?_, ?_⟩
    · exact List.mem_map.mpr ⟨a, ha, by rw [if_pos hpa']⟩
    · intro hnr
      exact List.mem_map.mpr ⟨r, hr, by rw [if_neg hnr]⟩
    · intro x hx hxn hxk
      obtain ⟨b, hb, hfb⟩ := List.mem_map.mp hx
      by_cases hpb : b.name = m.name ∧ b.key = m.key
      · rw [if_pos hpb] at hfb
        exact hfb.symm
      · rw [if_neg hpb] at hfb
        subst hfb
        exact absurd ⟨hxn, hxk⟩ hpb
  · simp only [hany, if_false]
    refine ⟨List.mem_append_right db (by simp), fun _ =>
      List.mem_append_left [m] hr, ?_⟩
    intro x hx hxn hxk
    rcases List.mem_append.mp hx with hx | hx
    · have := List.any_eq_true.not.mp hany
      exact absurd (List.any_eq_true.mpr ⟨x, hx, decide_eq_true ⟨hxn, hxk⟩⟩)
        hany
    · simpa using hx

/-- Witness for C5 at a concrete one-row index. -/
theorem C5_upsert_name_key_witness :
    md0 ∈ [md0] ∧
    (md0 ∈ MetaDataDB.update [md0] md0 ∧
     (¬(md0.name = md0.name ∧ md0.key = md0.key) →
       md0 ∈ MetaDataDB.update [md0] md0) ∧
     (∀ x ∈ MetaDataDB.update [md0] md0, x.name = md0.name →
       x.key = md0.key → x = md0)) :=
  ⟨by decide, C5_upsert_name_key [md0] md0 md0 (by decide)⟩
/-! ## C3 — decryption pipeline selection -/

/-- A record with a null encryption key whose blob, under the identity
gpg pipeline, decrypts back to `[1]`. -/
def m_C3 : Metadata :=
  { md0 with
    key := [3], checksum := [1], size := 1, encrypted_size := 1,
    encrypted_checksum := [1] }

/-- A state whose data bucket holds that record's blob. -/
def s_C3 : CloudState :=
  { metadata_bucket := [], data_bucket := [([1], [1])], db := [] }

/-- Counterexample to C3 as stated: a record with a null
`encryption_key` retrieves fine through the gpg pipeline, but under a
configuration whose `encryption_method` is `symmetric` the SAME record
is decrypted through the symmetric pipeline (here failing inside it):
the pipeline is selected by the configured method, not by the record's
null `encryption_key`. -/
theorem C3_pipeline_counterexample :
    m_C3.encryption_key = none ∧
    Cloud.retrieve cfg_gpg_id s_C3 m_C3 = .ok [1] ∧
    Cloud.retrieve cfg_sym_id s_C3 m_C3 = .error .index_error :=
  ⟨rfl, rfl, rfl⟩

/-- C3 (amended): `retrieve` selects the decryption pipeline from the
configured `encryption_method` alone — `symmetric` and `cryptoengine`
run their pipeline with the record's `encryption_key` as password, and
any other configuration runs gpg, which ignores the record's
`encryption_key` entirely: under a gpg configuration the result does not
depend on that field at all. -/
theorem C3_pipeline_from_method (cfg : Cfg) (s : CloudState) (m : Metadata)
    (k : Option (List Nat)) (hm : cfg.encryption_method = .gpg) :
    Cloud.retrieve cfg s m =
      Cloud.retrieve cfg s { m with encryption_key := k } := by
  unfold Cloud.retrieve
  rw [hm]

/-- Witness for C3 (amended) at the concrete gpg configuration. -/
theorem C3_pipeline_from_method_witness :
    cfg_gpg_id.encryption_method = .gpg ∧
    Cloud.retrieve cfg_gpg_id s_C3 m_C3 =
      Cloud.retrieve cfg_gpg_id s_C3 { m_C3 with encryption_key := some [9] } :=
  ⟨rfl, C3_pipeline_from_method cfg_gpg_id s_C3 m_C3 (some [9]) rfl⟩

/-! ## C6 — sync error dispatch -/

/-- Configuration whose gpg decryption always fails. -/
def cfg_C6 : Cfg := { cfg_gpg_id with gpg_decrypt := fun _ => none }

/-- A one-object metadata bucket. -/
def s_C6 : CloudState :=
  { metadata_bucket := [([5], [1])], data_bucket := [], db := [] }

/-- Counterexample to C6 as stated: a decryption failure aborts `sync`
with a GPG error, which is not a Metadata error and does not carry the
offending object's key. -/
theorem C6_gpg_failure_not_metadata_error :
    Cloud.sync cfg_C6 s_C6 = .error .gpg_error := rfl

/-- C6 (amended): `sync` decrypts, JSON-parses and validates
`metadata_version == 1` for each metadata object; empty decrypted
metadata, a JSON parse failure, a missing metadata version and a version
mismatch abort sync with a Metadata error carrying the offending
object's key — but a DECRYPTION failure aborts sync with a GPG error
that does not carry the key. -/
theorem C6_sync_error_dispatch (cfg : Cfg) (s : CloudState)
    (k eb : List Nat) (rest : List (List Nat × List Nat))
    (hmb : s.metadata_bucket = (k, eb) :: rest) :
    (cfg.gpg_decrypt eb = none → Cloud.sync cfg s = .error .gpg_error) ∧
    (cfg.gpg_decrypt eb = some [] →
      Cloud.sync cfg s = .error (.metadata_error k .no_metadata)) ∧
    (∀ d, cfg.gpg_decrypt eb = some d → d ≠ [] → cfg.json_loads d = none →
      Cloud.sync cfg s = .error (.metadata_error k .invalid_metadata)) ∧
    (∀ d p, cfg.gpg_decrypt eb = some d → d ≠ [] →
      cfg.json_loads d = some p → p.metadata_version = none →
      Cloud.sync cfg s = .error (.metadata_error k .no_metadata_version)) ∧
    (∀ d p v, cfg.gpg_decrypt eb = some d → d ≠ [] →
      cfg.json_loads d = some p → p.metadata_version = some v →
      v ≠ METADATA_VERSION →
      Cloud.sync cfg s =
        .error (.metadata_error k (.wrong_metadata_version v))) := by
  have hs : Cloud.sync cfg s =
      (Cloud.sync_loop cfg (MetaDataDB.drop s.db cfg.metadata_provider_name)
        ((k, eb) :: rest)).map (fun db => { s with db := db }) := by
    rw [Cloud.sync, hmb]
  refine ⟨?_, ?_, ?_, ?_, ?_⟩
  · intro h
    rw [hs]
    simp [Cloud.sync_loop, h, Except.map]
  · intro h
    rw [hs]
    simp [Cloud.sync_loop, h, Except.map]
  · intro d h hd hj
    rw [hs]
    simp [Cloud.sync_loop, h, hd, hj, Except.map]
  · intro d p h hd hj hv
    rw [hs]
    simp [Cloud.sync_loop, h, hd, hj, hv, Except.map]
  · intro d p v h hd hj hv hne
    rw [hs]
    simp [Cloud.sync_loop, h, hd, hj, hv, hne, Except.map]

/-- Witness for C6 (amended) at the failing-decryption configuration. -/
theorem C6_sync_error_dispatch_witness :
    s_C6.metadata_bucket = [([5], [1])] ∧
    Cloud.sync cfg_C6 s_C6 = .error .gpg_error :=
  ⟨rfl, (C6_sync_error_dispatch cfg_C6 s_C6 [5] [1] [] rfl).1 rfl⟩

/-! ## C7 — delete -/

/-- A state holding two index rows of two different back ends that share
the same entry key and checksum (the same file stored under the same
logical path through two providers into one shared index), plus the
blobs of the configured provider. -/
def s_C7 : CloudState :=
  { metadata_bucket := [([1], [2])], data_bucket := [([9], [3])],
    db := [md0, { md0 with provider := [66] }] }

/-- Counterexample to C7 as stated: deleting `md0` also removes the
OTHER back end's index row (same entry key, different provider), which
the claim says remains; `database.delete` filters on the key alone. -/
theorem C7_delete_removes_other_provider_row :
    { md0 with provider := [66] } ∈ s_C7.db ∧
    { md0 with provider := [66] } ≠ md0 ∧
    ({ md0 with provider := [66] } : Metadata).key = md0.key ∧
    { md0 with provider := [66] } ∉ (Cloud.delete cfg_gpg_id s_C7 md0).db :=
  by decide

/-- C7 (amended): `delete(r)` removes the metadata object at `r`'s entry
key and EVERY index row whose entry key equals `r`'s, whatever its
back-end id; the data blob at `r.checksum` is removed precisely when no
row with the configured metadata provider name and the same checksum
remains in the index, and any surviving row of the configured provider
with the same checksum keeps the blob in place. -/
theorem C7_delete_spec (cfg : Cfg) (s : CloudState) (m : Metadata) :
    (Cloud.delete cfg s m).metadata_bucket =
      bucket_delete s.metadata_bucket m.key ∧
    (Cloud.delete cfg s m).db = s.db.filter (fun r => r.key ≠ m.key) ∧
    (MetaDataDB.find_one (Cloud.delete cfg s m).db
        cfg.metadata_provider_name m.checksum = none →
      (Cloud.delete cfg s m).data_bucket =
        bucket_delete s.data_bucket m.checksum) ∧
    (∀ r', MetaDataDB.find_one (Cloud.delete cfg s m).db
        cfg.metadata_provider_name m.checksum = some r' →
      (Cloud.delete cfg s m).data_bucket = s.data_bucket) ∧
    (∀ r' ∈ s.db, r'.key ≠ m.key → r' ∈ (Cloud.delete cfg s m).db) := by
  refine ⟨rfl, rfl, ?_, ?_, ?_⟩
  · intro h
    show (if (MetaDataDB.find_one (MetaDataDB.delete s.db m.key)
        cfg.metadata_provider_name m.checksum).isNone = true then
        bucket_delete s.data_bucket m.checksum else s.data_bucket) =
      bucket_delete s.data_bucket m.checksum
    have h2 : MetaDataDB.find_one (MetaDataDB.delete s.db m.key)
        cfg.metadata_provider_name m.checksum = none := h
    rw [h2]
    rfl
  · intro r' h
    show (if (MetaDataDB.find_one (MetaDataDB.delete s.db m.key)
        cfg.metadata_provider_name m.checksum).isNone = true then
        bucket_delete s.data_bucket m.checksum else s.data_bucket) =
      s.data_bucket
    have h2 : MetaDataDB.find_one (MetaDataDB.delete s.db m.key)
        cfg.metadata_provider_name m.checksum = some r' := h
    rw [h2]
    rfl
  · intro r' hr' hk
    show r' ∈ s.db.filter (fun r => r.key ≠ m.key)
    exact List.mem_filter.mpr ⟨hr', decide_eq_true hk⟩

/-! ## C2 — deduplication -/

/-- Inversion of a successful `Cloud.store`: the returned record is the
freshly built metadata record (entry key folds the path, checksum is the
plaintext hash, provider is the metadata back end), the index is
upserted with it, and when the dedup lookup found an old record the data
bucket is untouched and the encryption fields are reused from it. -/
theorem store_ok_inv (cfg : Cfg) (ent : Entropy) (s : CloudState)
    (data fn : List Nat) (st : Option Stat) (s' : CloudState) (r : Metadata)
    (h : Cloud.store cfg ent s data fn st = .ok (s', r)) :
    r.provider = cfg.metadata_provider_name ∧
    r.key = checksum_data cfg.sha (data ++ fn) ∧
    r.checksum = checksum_data cfg.sha data ∧
    r.name = Cloud.basename fn ∧
    s'.db = MetaDataDB.update s.db r ∧
    ∀ old, MetaDataDB.find_one s.db cfg.metadata_provider_name
        (checksum_data cfg.sha data) = some old →
      s'.data_bucket = s.data_bucket ∧
      r.encryption_key = old.encryption_key ∧
      r.encrypted_size = old.encrypted_size ∧
      r.encrypted_checksum = old.encrypted_checksum := by
  unfold Cloud.store at h
  rcases hold : MetaDataDB.find_one s.db cfg.metadata_provider_name
      (checksum_data cfg.sha data) with _ | old
  · simp only [hold] at h
    rcases hm : cfg.encryption_method with _ | _ | _ <;> simp only [hm] at h
    · rcases hge : cfg.gpg_encrypt data with _ | c <;>
        simp only [Cloud.encrypt_gpg, hge] at h
      · exact absurd h (by simp [Bind.bind, Except.bind])
      · rcases hgem : cfg.gpg_encrypt (cfg.json_dumps
            (Cloud.create_metadata cfg.metadata_provider_name
              (checksum_data cfg.sha (data ++ fn)) fn data.length st
              (checksum_data cfg.sha data) none c.length
              (checksum_data cfg.sha c))) with _ | em <;>
          simp only [Bind.bind, Except.bind, hgem] at h
        · exact absurd h (by simp)
        · rw [Except.ok.injEq, Prod.mk.injEq] at h
          obtain ⟨hs', hr⟩ := h
          subst hs' hr
          refine ⟨rfl, rfl, rfl, rfl, rfl, ?_⟩
          intro old hsome
          exact absurd hsome (by simp)
    · rcases hgem : cfg.gpg_encrypt (cfg.json_dumps
          (Cloud.create_metadata cfg.metadata_provider_name
            (checksum_data cfg.sha (data ++ fn)) fn data.length st
            (checksum_data cfg.sha data)
            (Cloud.encrypt_symmetric cfg ent data).encryption_key
            (Cloud.encrypt_symmetric cfg ent data).encrypted_size
            (Cloud.encrypt_symmetric cfg ent data).encrypted_checksum))
          with _ | em <;>
        simp only [Bind.bind, Except.bind, pure, Except.pure, hgem] at h
      · exact absurd h (by simp)
      · rw [Except.ok.injEq, Prod.mk.injEq] at h
        obtain ⟨hs', hr⟩ := h
        subst hs' hr
        refine ⟨rfl, rfl, rfl, rfl, rfl, ?_⟩
        intro old hsome
        exact absurd hsome (by simp)
    · rcases hce : encrypt_data cfg.sha cfg.aesE ent.salt data ent.password
          with _ | rr <;>
        simp only [Cloud.encrypt_cryptoengine, hce] at h
      · exact absurd h (by simp [Bind.bind, Except.bind])
      · rcases hgem : cfg.gpg_encrypt (cfg.json_dumps
            (Cloud.create_metadata cfg.metadata_provider_name
              (checksum_data cfg.sha (data ++ fn)) fn data.length st
              (checksum_data cfg.sha data) (some ent.password)
              rr.encrypted_data.length rr.encrypted_checksum)) with _ | em <;>
          simp only [Bind.bind, Except.bind, hgem] at h
        · exact absurd h (by simp)
        · rw [Except.ok.injEq, Prod.mk.injEq] at h
          obtain ⟨hs', hr⟩ := h
          subst hs' hr
          refine ⟨rfl, rfl, rfl, rfl, rfl, ?_⟩
          intro old hsome
          exact absurd hsome (by simp)
  · simp only [hold] at h
    rcases hgem : cfg.gpg_encrypt (cfg.json_dumps
        (Cloud.create_metadata cfg.metadata_provider_name
          (checksum_data cfg.sha (data ++ fn)) fn data.length st
          (checksum_data cfg.sha data) old.encryption_key
          old.encrypted_size old.encrypted_checksum)) with _ | em <;>
      simp only [Bind.bind, Except.bind, pure, Except.pure, hgem] at h
    · exact absurd h (by simp)
    · rw [Except.ok.injEq, Prod.mk.injEq] at h
      obtain ⟨hs', hr⟩ := h
      subst hs' hr
      refine ⟨rfl, rfl, rfl, rfl, rfl, ?_⟩
      intro old2 hsome
      rw [Option.some.injEq] at hsome
      subst hsome
      exact ⟨rfl, rfl, rfl, rfl⟩

/-- After upserting a record `m` of the given provider and checksum into
an index where the dedup lookup for that pair was empty, the lookup
finds exactly `m`. -/
theorem find_one_update_self (db : List Metadata) (m : Metadata)
    (pname c : List Nat) (hnone : MetaDataDB.find_one db pname c = none)
    (hm : m.provider = pname) (hc : m.checksum = c) :
    MetaDataDB.find_one (MetaDataDB.update db m) pname c = some m := by
  have hall : ∀ r ∈ db, ¬(r.provider = pname ∧ r.checksum = c) := by
    intro r hrm
    have := List.find?_eq_none.mp hnone r hrm
    simpa using this
  have hpm : (fun r : Metadata => decide
      (r.provider = pname ∧ r.checksum = c)) m = true :=
    decide_eq_true ⟨hm, hc⟩
  unfold MetaDataDB.update
  by_cases hany : db.any (fun r => r.name = m.name ∧ r.key = m.key) = true
  · rw [if_pos hany]
    unfold MetaDataDB.find_one
    clear hnone
    induction db with
    | nil => simp at hany
    | cons a t ih =>
        by_cases hpa : a.name = m.name ∧ a.key = m.key
        · simp only [List.map_cons, if_pos hpa]
          exact List.find?_cons_of_pos _ hpm
        · have hfa : ¬(fun r : Metadata => decide
              (r.provider = pname ∧ r.checksum = c)) a = true := by
            simpa using hall a (List.mem_cons_self a t)
          have hany' : t.any (fun r => r.name = m.name ∧ r.key = m.key)
              = true := by
            rcases List.any_eq_true.mp hany with ⟨x, hx, hpx⟩
            rcases List.mem_cons.mp hx with rfl | hx
            · exact absurd (of_decide_eq_true hpx) hpa
            · exact List.any_eq_true.mpr ⟨x, hx, hpx⟩
          simp only [List.map_cons, if_neg hpa]
          exact (@List.find?_cons_of_neg Metadata
            (fun r => decide (r.provider = pname ∧ r.checksum = c)) a
            (List.map (fun r => if r.name = m.name ∧ r.key = m.key then m
              else r) t) hfa).trans
            (ih (fun r hr => hall r (List.mem_cons_of_mem a hr)) hany')
  · rw [if_neg hany]
    unfold MetaDataDB.find_one at hnone ⊢
    rw [List.find?_append, hnone, Option.none_or]
    exact List.find?_cons_of_pos _ hpm

/-- C2: storing the same plaintext under a second, different path (with
no earlier record for its checksum in the starting index, and an
injective digest) yields a record with the same checksum and a distinct
entry key, leaves the data bucket exactly as the first store left it (so
there is at most one data-bucket write for that checksum), and reuses
the first record's `encryption_key`, `encrypted_size` and
`encrypted_checksum` without producing new ciphertext. -/
theorem C2_dedup (cfg : Cfg) (ent1 ent2 : Entropy) (s0 s1 s2 : CloudState)
    (p q1 q2 : List Nat) (st1 st2 : Option Stat) (r1 r2 : Metadata)
    (hH : Function.Injective cfg.sha)
    (hq : q1 ≠ q2)
    (hfresh : MetaDataDB.find_one s0.db cfg.metadata_provider_name
      (checksum_data cfg.sha p) = none)
    (h1 : Cloud.store cfg ent1 s0 p q1 st1 = .ok (s1, r1))
    (h2 : Cloud.store cfg ent2 s1 p q2 st2 = .ok (s2, r2)) :
    r1.checksum = r2.checksum ∧
    r1.key ≠ r2.key ∧
    s2.data_bucket = s1.data_bucket ∧
    r2.encryption_key = r1.encryption_key ∧
    r2.encrypted_size = r1.encrypted_size ∧
    r2.encrypted_checksum = r1.encrypted_checksum := by
  obtain ⟨hp1, hk1, hc1, _, hdb1, _⟩ :=
    store_ok_inv cfg ent1 s0 p q1 st1 s1 r1 h1
  obtain ⟨hp2, hk2, hc2, _, _, hdedup2⟩ :=
    store_ok_inv cfg ent2 s1 p q2 st2 s2 r2 h2
  have hfind1 : MetaDataDB.find_one s1.db cfg.metadata_provider_name
      (checksum_data cfg.sha p) = some r1 := by
    rw [hdb1]
    exact find_one_update_self s0.db r1 cfg.metadata_provider_name
      (checksum_data cfg.sha p) hfresh hp1 hc1
  obtain ⟨hbucket, hek, hes, hec⟩ := hdedup2 r1 hfind1
  refine ⟨by rw [hc1, hc2], ?_, hbucket, hek, hes, hec⟩
  intro hkeys
  rw [hk1, hk2] at hkeys
  exact hq (List.append_cancel_left (hH hkeys))
/-! ## C10 — totality of the symmetric decrypt stream -/

theorem cbc_short_modulo (short : List Nat)
    (h0 : short = [] → False)
    (h16 : ∀ (b1 b2 b3 b4 b5 b6 b7 b8 b9 b10 b11 b12 b13 b14 b15 b16 : Nat)
      (rest : List Nat), short = b1 :: b2 :: b3 :: b4 :: b5 :: b6 :: b7 ::
      b8 :: b9 :: b10 :: b11 :: b12 :: b13 :: b14 :: b15 :: b16 :: rest →
      False) :
    short.length % 16 ≠ 0 := by
  rcases short with _ | ⟨b1, t⟩
  · exact absurd rfl h0
  rcases t with _ | ⟨b2, t⟩
  · simp
  rcases t with _ | ⟨b3, t⟩
  · simp
  rcases t with _ | ⟨b4, t⟩
  · simp
  rcases t with _ | ⟨b5, t⟩
  · simp
  rcases t with _ | ⟨b6, t⟩
  · simp
  rcases t with _ | ⟨b7, t⟩
  · simp
  rcases t with _ | ⟨b8, t⟩
  · simp
  rcases t with _ | ⟨b9, t⟩
  · simp
  rcases t with _ | ⟨b10, t⟩
  · simp
  rcases t with _ | ⟨b11, t⟩
  · simp
  rcases t with _ | ⟨b12, t⟩
  · simp
  rcases t with _ | ⟨b13, t⟩
  · simp
  rcases t with _ | ⟨b14, t⟩
  · simp
  rcases t with _ | ⟨b15, t⟩
  · simp
  rcases t with _ | ⟨b16, t⟩
  · simp
  exact absurd rfl (h16 b1 b2 b3 b4 b5 b6 b7 b8 b9 b10 b11 b12 b13 b14 b15
    b16 t)

/-- With a block primitive that preserves the block length, one
`cipher.decrypt` call on a chunk whose length is a multiple of the block
size writes exactly as many bytes as it reads and chains a 16-byte
block. -/
theorem cbc_decrypt_chunk_len (D : List Nat → List Nat)
    (hD : ∀ b, b.length = 16 → (D b).length = 16) :
    ∀ (prev l : List Nat), l.length % 16 = 0 → prev.length = 16 →
      (cbc_decrypt_chunk D prev l).1.length = l.length ∧
      (cbc_decrypt_chunk D prev l).2.length = 16 := by
  intro prev l
  induction prev, l using cbc_decrypt_chunk.induct D with
  | case1 prev => intro _ h2; exact ⟨rfl, h2⟩
  | case2 prev b1 b2 b3 b4 b5 b6 b7 b8 b9 b10 b11 b12 b13 b14 b15 b16 rest
      blk ih =>
      intro h1 h2
      have hrest : rest.length % 16 = 0 := by
        simp only [List.length_cons] at h1
        omega
      have hblk : ([b1, b2, b3, b4, b5, b6, b7, b8, b9, b10, b11, b12, b13,
        b14, b15, b16] : List Nat).length = 16 := rfl
      obtain ⟨ihl, ihp⟩ := ih hrest hblk
      constructor
      · show (List.zipWith Nat.xor (D [b1, b2, b3, b4, b5, b6, b7, b8, b9,
          b10, b11, b12, b13, b14, b15, b16]) prev ++
          (cbc_decrypt_chunk D [b1, b2, b3, b4, b5, b6, b7, b8, b9, b10,
            b11, b12, b13, b14, b15, b16] rest).1).length = _
        rw [List.length_append, List.length_zipWith, hD _ hblk, h2, ihl]
        simp only [List.length_cons]
        omega
      · exact ihp
  | case3 prev short h0 h16 =>
      intro h1 _
      exact absurd h1 (cbc_short_modulo short h0 h16)

/-- Totality of the decrypt loop: with a length-preserving block
primitive, a positive block-aligned read size, a 16-byte chaining block
and a block-aligned stream, the loop reaches its final iteration with a
nonempty pending chunk and succeeds, consuming the entire stream. -/
theorem decrypt_loop_go_total (D : List Nat → List Nat)
    (hD : ∀ b, b.length = 16 → (D b).length = 16) (rs : Nat)
    (hrs16 : rs % 16 = 0) (hrs0 : 0 < rs) :
    ∀ (fuel : Nat) (prev pending remaining : List Nat),
      remaining.length < fuel → remaining.length % 16 = 0 →
      prev.length = 16 → (pending ≠ [] ∨ remaining ≠ []) →
      ∃ w, decrypt_loop_go D rs fuel prev pending remaining = some w ∧
        w.2 = remaining := by
  intro fuel
  induction fuel with
  | zero => intro prev pending remaining hf; omega
  | succ fuel ih =>
      intro prev pending remaining hf h16 hprev hne
      rcases hrem : remaining with _ | ⟨b, rrest⟩
      · subst hrem
        have hpend : pending ≠ [] := by
          rcases hne with h | h
          · exact h
          · exact absurd rfl h
        rcases hlast : pending.getLast? with _ | pad
        · exact absurd (List.getLast?_eq_none_iff.mp hlast) hpend
        have hstep : decrypt_loop_go D rs (fuel + 1) prev pending [] =
            if (cbc_decrypt_chunk D prev (List.take rs [])).1 = [] then
              match pending.getLast? with
              | none => none
              | some padding_length =>
                  if padding_length = 0 then some ([], List.take rs [])
                  else some (pending.take (pending.length - padding_length),
                    List.take rs [])
            else
              (decrypt_loop_go D rs fuel
                  (cbc_decrypt_chunk D prev (List.take rs [])).2
                  (cbc_decrypt_chunk D prev (List.take rs [])).1
                  (List.drop rs [])).map
                (fun w => (pending ++ w.1, List.take rs [] ++ w.2)) := rfl
        rw [hstep, List.take_nil,
          if_pos (show (cbc_decrypt_chunk D prev []).1 = [] from rfl), hlast]
        show ∃ w, (if pad = 0 then some (([] : List Nat), ([] : List Nat))
            else some (pending.take (pending.length - pad), [])) = some w ∧
          w.2 = ([] : List Nat)
        by_cases hpad : pad = 0
        · rw [if_pos hpad]
          exact ⟨([], []), rfl, rfl⟩
        · rw [if_neg hpad]
          exact ⟨(pending.take (pending.length - pad), []), rfl, rfl⟩
      · subst hrem
        set rem : List Nat := b :: rrest with hremdef
        have hrl : 0 < rem.length := by simp [hremdef]
        have hec : (rem.take rs).length = min rs rem.length :=
          List.length_take rs rem
        have hec16 : (rem.take rs).length % 16 = 0 := by
          rw [hec]
          rcases Nat.le_total rs rem.length with hle | hle
          · rw [Nat.min_eq_left hle]
            exact hrs16
          · rw [Nat.min_eq_right hle]
            exact h16
        have hecpos : 0 < (rem.take rs).length := by
          rw [hec]
          omega
        obtain ⟨hl1, hl2⟩ := cbc_decrypt_chunk_len D hD prev (rem.take rs)
          hec16 hprev
        have hne1 : (cbc_decrypt_chunk D prev (rem.take rs)).1 ≠ [] := by
          intro hcon
          rw [hcon] at hl1
          simp at hl1
          omega
        have hdrop16 : (rem.drop rs).length % 16 = 0 := by
          rw [List.length_drop]
          omega
        have hdropf : (rem.drop rs).length < fuel := by
          rw [List.length_drop]
          omega
        obtain ⟨w, hw, hw2⟩ := ih (cbc_decrypt_chunk D prev (rem.take rs)).2
          (cbc_decrypt_chunk D prev (rem.take rs)).1 (rem.drop rs) hdropf
          hdrop16 hl2 (Or.inl hne1)
        have hstep : decrypt_loop_go D rs (fuel + 1) prev pending rem =
            if (cbc_decrypt_chunk D prev (rem.take rs)).1 = [] then
              match pending.getLast? with
              | none => none
              | some padding_length =>
                  if padding_length = 0 then some ([], rem.take rs)
                  else some (pending.take (pending.length - padding_length),
                    rem.take rs)
            else
              (decrypt_loop_go D rs fuel
                  (cbc_decrypt_chunk D prev (rem.take rs)).2
                  (cbc_decrypt_chunk D prev (rem.take rs)).1
                  (rem.drop rs)).map
                (fun w => (pending ++ w.1, rem.take rs ++ w.2)) := rfl
        refine ⟨(pending ++ w.1, rem.take rs ++ w.2), ?_, ?_⟩
        · rw [hstep, if_neg hne1, hw]
          rfl
        · show rem.take rs ++ w.2 = rem
          rw [hw2, List.take_append_drop]

/-- For a 32-byte digest function, `derive_key_and_iv` with the
parameters used by `encrypt` and `decrypt` returns the first digest as
key and 16 bytes of the second digest as IV. -/
theorem derive_key_and_iv_32_16 (sha : List Nat → List Nat)
    (password salt : List Nat) (hsha : ∀ x, (sha x).length = 32) :
    derive_key_and_iv sha password salt 32 16 =
      (sha (password ++ salt),
        (sha (sha (password ++ salt) ++ password ++ salt)).take 16) := by
  have l1 : (sha (password ++ salt)).length = 32 := hsha _
  have key : derive_loop sha password salt 48 48 [] [] =
      sha (password ++ salt) ++
        sha (sha (password ++ salt) ++ password ++ salt) := by
    have s1 : derive_loop sha password salt 48 48 [] [] =
        if ([] : List Nat).length < 48 then
          derive_loop sha password salt 48 47 (sha (password ++ salt))
            (sha (password ++ salt))
        else [] := rfl
    rw [s1, if_pos (by simp)]
    have s2 : derive_loop sha password salt 48 47 (sha (password ++ salt))
          (sha (password ++ salt)) =
        if (sha (password ++ salt)).length < 48 then
          derive_loop sha password salt 48 46
            (sha (password ++ salt) ++
              sha (sha (password ++ salt) ++ password ++ salt))
            (sha (sha (password ++ salt) ++ password ++ salt))
        else sha (password ++ salt) := rfl
    rw [s2, if_pos (by omega)]
    have s3 : derive_loop sha password salt 48 46
          (sha (password ++ salt) ++
            sha (sha (password ++ salt) ++ password ++ salt))
          (sha (sha (password ++ salt) ++ password ++ salt)) =
        if (sha (password ++ salt) ++
            sha (sha (password ++ salt) ++ password ++ salt)).length < 48 then
          derive_loop sha password salt 48 45
            ((sha (password ++ salt) ++
              sha (sha (password ++ salt) ++ password ++ salt)) ++
              sha (sha (sha (password ++ salt) ++ password ++ salt) ++
                password ++ salt))
            (sha (sha (sha (password ++ salt) ++ password ++ salt) ++
              password ++ salt))
        else sha (password ++ salt) ++
          sha (sha (password ++ salt) ++ password ++ salt) := rfl
    rw [s3, if_neg (by
      simp only [List.length_append]
      have := hsha (sha (password ++ salt) ++ password ++ salt)
      omega)]
  have ht : (sha (password ++ salt) ++
      sha (sha (password ++ salt) ++ password ++ salt)).take 32 =
      sha (password ++ salt) := by
    conv_lhs => rw [← l1]
    exact List.take_left _ _
  have hd : (sha (password ++ salt) ++
      sha (sha (password ++ salt) ++ password ++ salt)).drop 32 =
      sha (sha (password ++ salt) ++ password ++ salt) := by
    conv_lhs => rw [← l1]
    exact List.drop_left _ _
  show ((derive_loop sha password salt 48 48 [] []).take 32,
    ((derive_loop sha password salt 48 48 [] []).drop 32).take 16) = _
  rw [key, ht, hd]

/-- C10: for every password (correct or not) and every input consisting
of a 16-byte salt followed by at least one 16-byte block, the symmetric
`decrypt` stream function terminates and returns plaintext bytes plus
the two checksums without raising: there is no verification of the
password, MAC or padding — the returned checksums are nothing but the
hash of the raw input and the hash of whatever plaintext came out, so
decryption under a wrong key silently yields garbage, and only the
caller's later comparison against the record's plaintext checksum can
notice. -/
theorem C10_decrypt_total (sha : List Nat → List Nat)
    (D : List Nat → List Nat → List Nat)
    (hsha : ∀ x, (sha x).length = 32)
    (hD : ∀ k b, b.length = 16 → (D k b).length = 16)
    (password input : List Nat) (n : Nat) (hn : 1 ≤ n)
    (hlen : input.length = 16 + 16 * n) :
    ∃ out, decrypt sha D password input =
      some (out, sha input, sha out) := by
  have hiv : ((derive_key_and_iv sha password (input.take 16) 32 16).2).length
      = 16 := by
    rw [derive_key_and_iv_32_16 sha password (input.take 16) hsha]
    rw [List.length_take]
    have := hsha (sha (password ++ input.take 16) ++ password ++
      input.take 16)
    omega
  have hdlen : (input.drop 16).length = 16 * n := by
    rw [List.length_drop, hlen]
    omega
  obtain ⟨w, hw, hw2⟩ := decrypt_loop_go_total
    (D (derive_key_and_iv sha password (input.take 16) 32 16).1) (fun b hb =>
      hD _ b hb) (1024 * 16) (by decide) (by decide)
    ((input.drop 16).length + 1)
    (derive_key_and_iv sha password (input.take 16) 32 16).2 []
    (input.drop 16) (by omega) (by rw [hdlen]; omega) hiv
    (Or.inr (by
      intro hcon
      rw [hcon] at hdlen
      simp at hdlen
      omega))
  refine ⟨w.1, ?_⟩
  show (decrypt_loop (D (derive_key_and_iv sha password (input.take 16)
      32 16).1) (1024 * 16)
      (derive_key_and_iv sha password (input.take 16) 32 16).2 []
      (input.drop 16)).map
      (fun w => (w.1, sha (input.take 16 ++ w.2), sha w.1)) = _
  unfold decrypt_loop
  rw [hw]
  simp only [Option.map_some']
  rw [hw2, List.take_append_drop]

/-- Witness for C10 at a concrete digest, block primitive, password and
32-byte input. -/
theorem C10_decrypt_total_witness :
    (∀ x : List Nat, (sha32ex x).length = 32) ∧
    (∀ (k b : List Nat), b.length = 16 →
      (((fun (_ : List Nat) (b : List Nat) => b) : List Nat → List Nat →
        List Nat) k b).length = 16) ∧
    1 ≤ 1 ∧ (List.replicate 32 2).length = 16 + 16 * 1 ∧
    ∃ out, decrypt sha32ex (fun _ b => b) [1] (List.replicate 32 2) =
      some (out, sha32ex (List.replicate 32 2), sha32ex out) :=
  ⟨fun x => by simp [sha32ex], fun k b hb => hb, le_rfl, by simp,
    C10_decrypt_total sha32ex (fun _ b => b) (fun x => by simp [sha32ex])
      (fun k b hb => hb) [1] (List.replicate 32 2) 1 le_rfl (by simp)⟩
/-- First store of the C2 witness scenario (state and record). -/
def c2p1 : CloudState × Metadata :=
  match Cloud.store cfg_gpg_id ent_ex state_empty [7] [1] none with
  | .ok p => p
  | .error _ => (state_empty, md0)

/-- Second store of the C2 witness scenario (state and record). -/
def c2p2 : CloudState × Metadata :=
  match Cloud.store cfg_gpg_id ent_ex c2p1.1 [7] [2] none with
  | .ok p => p
  | .error _ => (state_empty, md0)

/-- Witness for C2: the same plaintext `[7]` stored under the two paths
`[1]` and `[2]` from the empty state. -/
theorem C2_dedup_witness :
    Function.Injective cfg_gpg_id.sha ∧
    ([1] : List Nat) ≠ [2] ∧
    MetaDataDB.find_one state_empty.db cfg_gpg_id.metadata_provider_name
      (checksum_data cfg_gpg_id.sha [7]) = none ∧
    Cloud.store cfg_gpg_id ent_ex state_empty [7] [1] none =
      .ok (c2p1.1, c2p1.2) ∧
    Cloud.store cfg_gpg_id ent_ex c2p1.1 [7] [2] none =
      .ok (c2p2.1, c2p2.2) ∧
    (c2p1.2.checksum = c2p2.2.checksum ∧
     c2p1.2.key ≠ c2p2.2.key ∧
     c2p2.1.data_bucket = c2p1.1.data_bucket ∧
     c2p2.2.encryption_key = c2p1.2.encryption_key ∧
     c2p2.2.encrypted_size = c2p1.2.encrypted_size ∧
     c2p2.2.encrypted_checksum = c2p1.2.encrypted_checksum) :=
  ⟨fun a b h => h, by decide, rfl, rfl, rfl,
    C2_dedup cfg_gpg_id ent_ex ent_ex state_empty c2p1.1 c2p2.1 [7] [1] [2]
      none none c2p1.2 c2p2.2 (fun a b h => h) (by decide) rfl rfl rfl⟩

/-! ## C4 — no plaintext at the target path on a Data error -/

/-- A stored blob: the base64 encoding of a 16-byte salt followed by one
16-byte ciphertext block (which, under the identity collaborators,
decrypts to fifteen zeros after stripping one byte of padding). -/
def blob_C4 : List Nat :=
  encodestring (List.replicate 16 0 ++ List.replicate 15 0 ++ [1])

/-- A record whose encrypted checksum matches that blob but whose
plaintext checksum `[9]` does not match the decrypted plaintext. -/
def m_C4 : Metadata :=
  { md0 with
    key := [4], checksum := [9], encryption_key := some ([] : List Nat),
    encrypted_size := blob_C4.length, encrypted_checksum := blob_C4 }

/-- A state holding that blob under the record's checksum. -/
def s_C4 : CloudState :=
  { metadata_bucket := [], data_bucket := [([9], blob_C4)], db := [] }

/-- Counterexample to C4 as stated: when the plaintext checksum
mismatches, `retrieve_to_filename` fails with a Data error AND the
wrongly decrypted plaintext has already been written to — and is left
at — the target path (`_decrypt_file_symmetric` writes plaintext
directly to the target, not to a staging tempfile). -/
theorem C4_plaintext_mismatch_leaves_file :
    (Cloud.retrieve_to_filename cfg_sym_id s_C4 m_C4).1 =
      .error (.data_error [9]
        (.wrong_checksum (List.replicate 15 0) [9])) ∧
    (Cloud.retrieve_to_filename cfg_sym_id s_C4 m_C4).2 =
      some (List.replicate 15 0) :=
  ⟨rfl, rfl⟩

/-- C4 (amended): when `retrieve_to_filename` fails because the
CIPHERTEXT checksum mismatches the record, no plaintext file is created
at the target path (the ciphertext is staged in a tempfile and decryption
is never reached); when the PLAINTEXT checksum mismatches, the wrongly
decrypted plaintext has already been written to the target path and is
left there. -/
theorem C4_ciphertext_mismatch_no_file (cfg : Cfg) (s : CloudState)
    (m : Metadata) (blob : List Nat)
    (hget : bucket_get s.data_bucket m.checksum = some blob)
    (hck : checksum_data cfg.sha blob ≠ m.encrypted_checksum) :
    Cloud.retrieve_to_filename cfg s m =
      (.error (.data_error m.checksum (.wrong_encrypted_checksum
        (checksum_data cfg.sha blob) m.encrypted_checksum)), none) := by
  unfold Cloud.retrieve_to_filename
  rw [hget]
  exact if_pos hck

/-- Witness for C4 (amended): the C4 record with a tampered encrypted
checksum. -/
theorem C4_ciphertext_mismatch_no_file_witness :
    bucket_get s_C4.data_bucket
      ({ m_C4 with encrypted_checksum := [0] } : Metadata).checksum =
      some blob_C4 ∧
    checksum_data cfg_sym_id.sha blob_C4 ≠
      ({ m_C4 with encrypted_checksum := [0] } : Metadata).encrypted_checksum ∧
    Cloud.retrieve_to_filename cfg_sym_id s_C4
      { m_C4 with encrypted_checksum := [0] } =
      (.error (.data_error ({ m_C4 with encrypted_checksum := [0] } :
        Metadata).checksum
        (.wrong_encrypted_checksum (checksum_data cfg_sym_id.sha blob_C4)
          ({ m_C4 with encrypted_checksum := [0] } :
            Metadata).encrypted_checksum)), none) :=
  ⟨rfl, by decide,
    C4_ciphertext_mismatch_no_file cfg_sym_id s_C4
      { m_C4 with encrypted_checksum := [0] } blob_C4 rfl (by decide)⟩

/-! ## C1 — round trip -/

/-- C1 (code bug, cryptoengine leg): storing the plaintext `"abcd"`
(bytes 97 98 99 100) under the path `"x"` with the cryptoengine method
SUCCEEDS, but retrieving the returned record immediately fails with a
Data error: the engine hands the RAW plaintext to the worker, the worker
base64-DECODES it to the three bytes 105 183 29 before encrypting, and
on retrieval the worker's plaintext checksum is the checksum of those
three bytes, which can never equal the record's checksum of the original
four.  The repository's own tests assert this round trip succeeds. -/
theorem C1_cryptoengine_roundtrip_fails :
    (Cloud.store cfg_ce_id ent_ex state_empty [97, 98, 99, 100] [120]
      none).map (fun p => Cloud.retrieve cfg_ce_id p.1 p.2) =
      .ok (.error (.data_error [97, 98, 99, 100]
        (.wrong_checksum [105, 183, 29] [97, 98, 99, 100]))) := rfl
/-- Reading back the key just written to a bucket. -/
theorem bucket_get_store (b : Bucket) (k v : List Nat) :
    bucket_get (bucket_store b k v) k = some v := by
  unfold bucket_get bucket_store
  rw [List.find?_append]
  have h1 : (b.filter (fun e => e.1 ≠ k)).find?
      (fun e => e.1 = k) = none := by
    rw [List.find?_eq_none]
    intro x hx
    have := (List.mem_filter.mp hx).2
    simpa using this
  rw [h1, Option.none_or,
    @List.find?_cons_of_pos (List Nat × List Nat)
      (fun e => decide (e.1 = k)) (k, v) [] (by simp)]
  rfl

/-- Forward characterization of a fresh gpg store. -/
theorem store_gpg_fresh (cfg : Cfg) (ent : Entropy) (s : CloudState)
    (p q : List Nat) (st : Option Stat) (c em : List Nat)
    (hm : cfg.encryption_method = .gpg)
    (hfresh : MetaDataDB.find_one s.db cfg.metadata_provider_name
      (checksum_data cfg.sha p) = none)
    (hge : cfg.gpg_encrypt p = some c)
    (hgem : cfg.gpg_encrypt (cfg.json_dumps (Cloud.create_metadata
      cfg.metadata_provider_name (checksum_data cfg.sha (p ++ q)) q p.length
      st (checksum_data cfg.sha p) none c.length (checksum_data cfg.sha c)))
      = some em) :
    Cloud.store cfg ent s p q st = .ok
      ({ metadata_bucket := bucket_store s.metadata_bucket
          (checksum_data cfg.sha (p ++ q)) em,
         data_bucket :=
           bucket_store s.data_bucket (checksum_data cfg.sha p) c,
         db := MetaDataDB.update s.db (Cloud.create_metadata
           cfg.metadata_provider_name (checksum_data cfg.sha (p ++ q)) q
           p.length st (checksum_data cfg.sha p) none c.length
           (checksum_data cfg.sha c)) },
        Cloud.create_metadata cfg.metadata_provider_name
          (checksum_data cfg.sha (p ++ q)) q p.length st
          (checksum_data cfg.sha p) none c.length
          (checksum_data cfg.sha c)) := by
  unfold Cloud.store
  simp only [hfresh, hm, Cloud.encrypt_gpg, hge, Bind.bind, Except.bind, hgem]

/-- A gpg-configured retrieve succeeds when the blob is present, its
checksum matches and gpg decryption inverts to data of the recorded
checksum. -/
theorem retrieve_gpg_ok (cfg : Cfg) (s : CloudState) (m : Metadata)
    (c x : List Nat)
    (hm : cfg.encryption_method = .gpg)
    (hget : bucket_get s.data_bucket m.checksum = some c)
    (hck : checksum_data cfg.sha c = m.encrypted_checksum)
    (hdec : cfg.gpg_decrypt c = some x)
    (hx : checksum_data cfg.sha x = m.checksum) :
    Cloud.retrieve cfg s m = .ok x := by
  unfold Cloud.retrieve
  rw [hget]
  simp only [hck, hm, Cloud.decrypt_gpg, hdec, Bind.bind, Except.bind, hx,
    ne_eq, not_true_eq_false, if_false]

/-- Round trip of the gpg pipeline through the engine: a fresh store
followed by a retrieve of the returned record gives back the exact
plaintext, for any gpg pipeline whose decryption inverts its
encryption. -/
theorem store_retrieve_gpg (cfg : Cfg) (ent : Entropy) (s : CloudState)
    (p q : List Nat) (st : Option Stat) (s1 : CloudState) (r : Metadata)
    (hm : cfg.encryption_method = .gpg)
    (hfresh : MetaDataDB.find_one s.db cfg.metadata_provider_name
      (checksum_data cfg.sha p) = none)
    (hinv : ∀ x c, cfg.gpg_encrypt x = some c → cfg.gpg_decrypt c = some x)
    (h1 : Cloud.store cfg ent s p q st = .ok (s1, r)) :
    Cloud.retrieve cfg s1 r = .ok p := by
  rcases hge : cfg.gpg_encrypt p with _ | c
  · rw [Cloud.store] at h1
    simp only [hfresh, hm, Cloud.encrypt_gpg, hge, Bind.bind,
      Except.bind] at h1
    exact Except.noConfusion h1
  rcases hgem : cfg.gpg_encrypt (cfg.json_dumps (Cloud.create_metadata
      cfg.metadata_provider_name (checksum_data cfg.sha (p ++ q)) q p.length
      st (checksum_data cfg.sha p) none c.length (checksum_data cfg.sha c)))
      with _ | em
  · rw [Cloud.store] at h1
    simp only [hfresh, hm, Cloud.encrypt_gpg, hge, Bind.bind, Except.bind,
      hgem] at h1
    exact Except.noConfusion h1
  rw [store_gpg_fresh cfg ent s p q st c em hm hfresh hge hgem,
    Except.ok.injEq, Prod.mk.injEq] at h1
  obtain ⟨hs1, hr⟩ := h1
  subst hs1 hr
  exact retrieve_gpg_ok cfg _ _ c p hm
    (bucket_get_store s.data_bucket (checksum_data cfg.sha p) c) rfl
    (hinv p c hge) rfl

/-- Concrete end-to-end round trip of the symmetric pipeline through the
engine, evaluated by the kernel: store the bytes `[1, 2, 3]` under path
`[120]` with the identity collaborators and random password `[5]`, then
retrieve the returned record. -/
theorem store_retrieve_symmetric_example :
    (Cloud.store cfg_sym_id ent_ex state_empty [1, 2, 3] [120] none).map
      (fun pr => Cloud.retrieve cfg_sym_id pr.1 pr.2) =
      .ok (.ok [1, 2, 3]) := rfl
end Gpgcloud
